import Mathlib

/-!
Verification development for the stoat-ai-interface message coordinator.

The definitions below are a shallow embedding of the TypeScript source:
JavaScript strings are modelled as `List Char`, JavaScript objects and
arrays that reach the reply-id normalizer are modelled by the `JsVal`
inductive, `Map` objects are modelled as insertion-ordered association
lists, and the asynchronous quiescence-polling loop is modelled as a
discrete-time fueled loop in which each 500 ms sleep advances the clock
by exactly the poll interval.
-/

namespace Stoat

/-- A JavaScript string, modelled as its list of characters. -/
abbrev JsString := List Char

/-- JavaScript whitespace trim (String.prototype.trim), dropping whitespace
from both ends of the string. -/
def jsTrim (str : JsString) : JsString :=
  ((str.dropWhile Char.isWhitespace).reverse.dropWhile Char.isWhitespace).reverse

/-- Whether the list `hay` starts with the list `needle`. -/
def startsWithSeq : JsString → JsString → Bool
  | _, [] => true
  | [], _ :: _ => false
  | b :: bs, a :: as => a == b && startsWithSeq bs as

/-- JavaScript `hay.includes(needle)` on strings: substring containment. -/
def jsIncludes : JsString → JsString → Bool
  | hay, needle =>
    startsWithSeq hay needle ||
      (match hay with
       | [] => false
       | _ :: rest => jsIncludes rest needle)

/-- Embedding of `messageMentionsBot` (src/routing.ts lines 1-15): the bot id
is trimmed and an empty id never matches; then the structured mention-id
list is consulted, and finally the two textual mention token forms
`<@id>` and `<@!id>`. -/
def messageMentionsBot (text : JsString) (botUserId : JsString)
    (mentionIds : List JsString) : Bool :=
  let trimmed := jsTrim botUserId
  if trimmed.isEmpty then false
  else if mentionIds.contains trimmed then true
  else
    jsIncludes text ("<@".toList ++ trimmed ++ ">".toList) ||
      jsIncludes text ("<@!".toList ++ trimmed ++ ">".toList)

/-- The fragment of JavaScript runtime values that can reach
`normalizeIdList` in src/routing.ts: null, booleans, numbers, strings,
objects (of which only the `id` field is ever inspected by the code) and
arrays. -/
inductive JsVal where
  | vnull
  | vbool (b : Bool)
  | vnum (n : Int)
  | vstr (str : JsString)
  | vobj (idField : Option JsVal)
  | varr (items : List JsVal)

/-- The id extracted from one entry of the reply-id list by the loop body of
`normalizeIdList` (src/routing.ts lines 21-33): a string entry yields
itself, an object entry yields its `id` field when that field is a string,
and every other entry is skipped. -/
def entryId : JsVal → Option JsString
  | .vstr str => some str
  | .vobj (some (.vstr str)) => some str
  | _ => none

/-- Embedding of `normalizeIdList` (src/routing.ts lines 17-36): non-arrays
normalize to the empty list, arrays keep the well-typed ids in order. -/
def normalizeIdList : JsVal → List JsString
  | .varr items => items.filterMap entryId
  | _ => []

/-- Embedding of `messageRepliesToBot` (src/routing.ts lines 38-53): the
known bot message ids are filtered down to nonempty strings, an empty
known set never matches, and otherwise any normalized reply id that is in
the known set matches. -/
def messageRepliesToBot (replyIds : JsVal) (knownBotMessageIds : List JsVal) :
    Bool :=
  let knownSet := knownBotMessageIds.filterMap (fun v =>
    match v with
    | .vstr str => if (jsTrim str).isEmpty then none else some str
    | _ => none)
  if knownSet.isEmpty then false
  else (normalizeIdList replyIds).any (fun id => knownSet.contains id)

/-! Queue-system emoji constants (src/unnamed/part_003 lines 90-94). -/

/-- Reaction shown while a message is being processed. -/
def EMOJI_PROCESSING : JsString := "👀".toList

/-- Reaction shown while a message is queued for the next batch. -/
def EMOJI_QUEUED : JsString := "📥".toList

/-- The stop button reaction. -/
def EMOJI_STOP : JsString := "⏹️".toList

/-- Terminal reaction for a completed turn. -/
def EMOJI_COMPLETE : JsString := "✅".toList

/-- Terminal reaction for a cancelled message or turn. -/
def EMOJI_CANCELLED : JsString := "🚫".toList

/-- Embedding of the `QueuedMessage` record (src/unnamed/part_003 lines
97-105); the live platform message object is represented by its id. -/
structure QueuedMessage where
  id : JsString
  content : JsString
  authorId : JsString
  authorName : JsString
  queuedAt : Nat
  cancelled : Bool
deriving DecidableEq

/-- Embedding of `ChannelProcessingState` (src/unnamed/part_003 lines
108-113). The `AbortController` is modelled by its presence flag together
with the fired state of its signal. -/
structure ChannelProcessingState where
  isProcessing : Bool
  currentMessageId : Option JsString
  hasAbortController : Bool
  abortFired : Bool
  queuedMessages : List QueuedMessage
deriving DecidableEq

/-- Marks the first queue entry whose id matches, mirroring the in-place
mutation of the entry found by `find` in `cancelQueuedMessage`. -/
def setCancelledFirst : List QueuedMessage → JsString → List QueuedMessage
  | [], _ => []
  | m :: rest, messageId =>
    if m.id = messageId then { m with cancelled := true } :: rest
    else m :: setCancelledFirst rest messageId

/-- Embedding of `cancelQueuedMessage` (src/unnamed/part_003 lines 150-159):
finds the first queue entry with the given id; when it exists and is not
yet cancelled, its cancelled flag is set (the entry stays in the queue)
and true is returned, otherwise nothing changes and false is returned. -/
def cancelQueuedMessage (st : ChannelProcessingState) (messageId : JsString) :
    Bool × ChannelProcessingState :=
  match st.queuedMessages.find? (fun m => decide (m.id = messageId)) with
  | some m =>
    if m.cancelled then (false, st)
    else (true,
      { st with queuedMessages := setCancelledFirst st.queuedMessages messageId })
  | none => (false, st)

/-- Embedding of `flushQueue` (src/unnamed/part_003 lines 161-167): returns
all non-cancelled queued messages and clears the whole queue. -/
def flushQueue (st : ChannelProcessingState) :
    List QueuedMessage × ChannelProcessingState :=
  (st.queuedMessages.filter (fun m => !m.cancelled),
   { st with queuedMessages := [] })

/-- Embedding of `requestAbort` (src/unnamed/part_003 lines 169-177): fires
the abort controller of the current turn when one is active. -/
def requestAbort (st : ChannelProcessingState) : Bool × ChannelProcessingState :=
  if st.isProcessing && st.hasAbortController then
    (true, { st with abortFired := true })
  else (false, st)

/-- A reaction applied to or removed from a platform message. -/
inductive ReactionOp where
  | unreact (messageId emoji : JsString)
  | react (messageId emoji : JsString)
deriving DecidableEq

/-- Outcome of the stop-button branch of the reaction handler. -/
inductive StopOutcome where
  | abortRequested (returned : Bool)
  | queuedCancelled (ops : List ReactionOp)
  | fallthrough
deriving DecidableEq

/-- Embedding of the stop-button handling in the `messageReactionAdd`
handler (src/unnamed/part_003 lines 1085-1105): a stop reaction on the
message currently being processed requests an abort of the running turn;
a stop reaction on a queued entry marks that entry cancelled and replaces
its queued-plus-stop reactions with the cancelled reaction; otherwise the
handler falls through to the regular reaction-command path. -/
def handleStopReaction (st : ChannelProcessingState) (messageId : JsString) :
    StopOutcome × ChannelProcessingState :=
  if st.currentMessageId = some messageId then
    let res := requestAbort st
    (.abortRequested res.1, res.2)
  else
    let res := cancelQueuedMessage st messageId
    if res.1 then
      (.queuedCancelled
        [.unreact messageId EMOJI_QUEUED,
         .unreact messageId EMOJI_STOP,
         .react messageId EMOJI_CANCELLED], res.2)
    else (.fallthrough, st)

/-! Per-channel settings store (src/unnamed/part_003 lines 26-83). -/

/-- Embedding of the `ChannelSettings` record (src/unnamed/part_003 lines
32-34). -/
structure ChannelSettings where
  readAll : Bool
deriving DecidableEq

/-- Insertion-ordered association list modelling both JavaScript `Map`
objects and plain JavaScript objects used as string-keyed records. -/
abbrev AList (α : Type) := List (JsString × α)

/-- Key lookup on an association list: the value of the first entry with a
matching key (JavaScript `Map.get` and object indexing). -/
def alistGet {α : Type} : AList α → JsString → Option α
  | [], _ => none
  | (k, v) :: rest, key => if k = key then some v else alistGet rest key

/-- Key update on an association list: replaces the value of the first entry
with a matching key in place, appending a new entry otherwise (JavaScript
`Map.set` and object assignment). -/
def alistSet {α : Type} : AList α → JsString → α → AList α
  | [], key, value => [(key, value)]
  | (k, v) :: rest, key, value =>
    if k = key then (key, value) :: rest
    else (k, v) :: alistSet rest key value

/-- The in-memory `channelSettings` map (src/unnamed/part_003 line 36). -/
abbrev SettingsMap := AList ChannelSettings

/-- The persisted settings file contents: a flat string-keyed record written
as a whole (src/unnamed/part_003 lines 59-63, §6 of the spec). -/
abbrev PersistedSettings := AList ChannelSettings

/-- Embedding of `getChannelSettings` (src/unnamed/part_003 lines 69-72):
the stored settings, defaulting to read-all off. -/
def getChannelSettings (m : SettingsMap) (channelId : JsString) :
    ChannelSettings :=
  (alistGet m channelId).getD { readAll := false }

/-- Embedding of `setChannelReadAll` (src/unnamed/part_003 lines 74-80)
minus the save call, which is modelled separately by
`saveChannelSettings`. -/
def setChannelReadAll (m : SettingsMap) (channelId : JsString)
    (readAll : Bool) : SettingsMap :=
  let settings := getChannelSettings m channelId
  alistSet m channelId { settings with readAll := readAll }

/-- Embedding of the serialization loop of `saveChannelSettings`
(src/unnamed/part_003 lines 59-63): every map entry is written into the
flat persisted record in iteration order. -/
def saveChannelSettings (m : SettingsMap) : PersistedSettings :=
  m.foldl (fun acc kv => alistSet acc kv.1 kv.2) []

/-- Embedding of `loadChannelSettings` (src/unnamed/part_003 lines 38-50)
run at startup of a fresh process: every persisted entry is set into the
(empty) in-memory map. -/
def loadChannelSettings (persisted : PersistedSettings) : SettingsMap :=
  persisted.foldl (fun acc kv => alistSet acc kv.1 kv.2) []

/-! Reaction-command table and interactive message registry
(src/unnamed/part_003 lines 13-21 and 678-701). -/

/-- Embedding of the static `REACTION_COMMANDS` table (src/unnamed/part_003
lines 13-21). -/
def REACTION_COMMANDS : AList JsString :=
  [("🗑️".toList, "clear".toList),
   ("📊".toList, "status".toList),
   ("❓".toList, "help".toList),
   ("🧹".toList, "clear".toList),
   ("🔄".toList, "refresh".toList),
   ("⏹️".toList, "stop".toList)]

/-- Embedding of the reaction-map construction in `sendCommandResponse`
(src/unnamed/part_003 lines 680-685): each preset reaction emoji is added
to the record of the tracked interactive message only when it has an
entry in `REACTION_COMMANDS`. -/
def buildReactionMap (presetReactions : List JsString) : AList JsString :=
  presetReactions.foldl (fun acc emoji =>
    match alistGet REACTION_COMMANDS emoji with
    | some cmd => alistSet acc emoji cmd
    | none => acc) []

/-! Turn execution model (src/unnamed/part_003, `processMessages`). -/

/-- The `[authorName]: text` line appended for one message of a multi-message
batch (src/unnamed/part_003 line 768). -/
def promptLine (m : QueuedMessage) : JsString :=
  "[".toList ++ m.authorName ++ "]: ".toList ++ m.content ++ "\n".toList

/-- Concatenation of a list of strings, in order. -/
def concatAll : List JsString → JsString
  | [] => []
  | line :: rest => line ++ concatAll rest

/-- Embedding of the combined-prompt construction loop
(src/unnamed/part_003 lines 762-773): for a batch of more than one
message each iteration appends an `[authorName]: text` line, while for a
single-message batch the loop body overwrites the accumulator with the
raw message text. -/
def combinedBody (messages : List QueuedMessage) : JsString :=
  messages.foldl
    (fun acc m =>
      if messages.length > 1 then acc ++ promptLine m else m.content)
    []

/-- A reply message sent to the chat platform by the deliver callback. -/
structure SentReply where
  content : JsString
  replyToId : JsString
deriving DecidableEq

/-- Embedding of the `deliver` callback (src/unnamed/part_003 lines
813-837): when the abort signal has fired the delivery is suppressed and
nothing is sent; an empty payload is also skipped; otherwise the payload
is sent as a reply quoting the first message of the batch. -/
def deliver (abortedNow : Bool) (firstMsgId : JsString) (payload : JsString) :
    Option SentReply :=
  if abortedNow then none
  else if payload.isEmpty then none
  else some { content := payload, replyToId := firstMsgId }

/-- Whether the abort signal has fired by the time of delivery attempt
number `i`, for a token that fires just before attempt `abortAt`. -/
def abortFiredAt (abortAt : Option Nat) (i : Nat) : Bool :=
  match abortAt with
  | none => false
  | some a => decide (a ≤ i)

/-- The sequence of replies actually sent by successive invocations of the
deliver callback, starting at delivery attempt number `i`. -/
def deliverAllFrom (abortAt : Option Nat) (firstMsgId : JsString) (i : Nat) :
    List JsString → List SentReply
  | [] => []
  | payload :: rest =>
    match deliver (abortFiredAt abortAt i) firstMsgId payload with
    | some r => r :: deliverAllFrom abortAt firstMsgId (i + 1) rest
    | none => deliverAllFrom abortAt firstMsgId (i + 1) rest

/-- The replies sent over a whole run of delivery attempts. -/
def deliverAll (abortAt : Option Nat) (firstMsgId : JsString)
    (payloads : List JsString) : List SentReply :=
  deliverAllFrom abortAt firstMsgId 0 payloads

/-- Whether the AI dispatch call returned normally or threw. -/
inductive DispatchOutcome where
  | ok
  | threw
deriving DecidableEq

/-- The observable outcome of one `processMessages` run. -/
structure TurnResult where
  ranTurn : Bool
  dispatchCalls : Nat
  prompt : JsString
  waitedForQuiet : Bool
  ops : List ReactionOp
  nextBatch : List QueuedMessage
  queueAfter : List QueuedMessage
  isProcessingAfter : Bool
deriving DecidableEq

/-- Embedding of the body of `processMessages` (src/unnamed/part_003 lines
714-911) as a function of the batch, of whether the single AI dispatch
call throws, of whether the abort signal has fired by the terminal step
(line 884), and of the pending queue contents at the end of the turn.
An empty batch returns immediately (line 720). Otherwise the combined
prompt is built, the dispatch call is made exactly once inside the
try block, the quiescence wait runs only when dispatch did not throw (a
thrown error jumps to the catch at lines 875-877, which only logs), and
the terminal block (lines 883-910) replaces the processing and stop
reactions of every batch message with the cancelled reaction when the
signal fired and with the complete reaction otherwise, resets the
processing state and flushes the queue into the next batch. -/
def processMessagesModel (messages : List QueuedMessage)
    (outcome : DispatchOutcome) (abortedAtEnd : Bool)
    (queue : List QueuedMessage) : TurnResult :=
  if messages.isEmpty then
    { ranTurn := false, dispatchCalls := 0, prompt := [],
      waitedForQuiet := false, ops := [], nextBatch := [],
      queueAfter := queue, isProcessingAfter := true }
  else
    let wasAborted := abortedAtEnd
    let terminalEmoji := if wasAborted then EMOJI_CANCELLED else EMOJI_COMPLETE
    let ops := messages.flatMap (fun m =>
      [ReactionOp.unreact m.id EMOJI_PROCESSING,
       ReactionOp.unreact m.id EMOJI_STOP,
       ReactionOp.react m.id terminalEmoji])
    let nextBatch := queue.filter (fun m => !m.cancelled)
    { ranTurn := true
      dispatchCalls := 1
      prompt := combinedBody messages
      waitedForQuiet := (match outcome with | .ok => true | .threw => false)
      ops := ops
      nextBatch := nextBatch
      queueAfter := []
      isProcessingAfter := !nextBatch.isEmpty }

/-! Quiescence detector (src/unnamed/part_003 lines 855-873). -/

/-- The fixed quiet window in milliseconds (line 856). -/
def QUIET_PERIOD : Nat := 3000

/-- The hard ceiling on the wait in milliseconds (line 857). -/
def MAX_WAIT : Nat := 180000

/-- The polling sleep in milliseconds (line 863). -/
def POLL_INTERVAL : Nat := 500

/-- The environment the polling loop observes: the value of the
`lastReplyTime` variable at each instant, and whether the abort signal
has fired at each instant. Time is in milliseconds. -/
structure QuiesceEnv where
  lastReply : Nat → Nat
  aborted : Nat → Bool

/-- Discrete-time embedding of the polling loop (lines 862-873). The check
number `k` happens at instant `startWait + POLL_INTERVAL * k`: the loop
condition requires the elapsed time to be below the hard ceiling and the
abort signal to be unfired; the body sleeps one poll interval, pulls the
current `lastReplyTime` into `quietSince` when a new delivery happened,
and breaks once the quiet window has elapsed since `quietSince`. The
fuel argument makes the loop structurally total; `waitLoop_fuel_irrel`
below shows any fuel beyond the hard ceiling gives the same result. The
returned value is the check number at which the loop exited. -/
def waitLoop (env : QuiesceEnv) (startWait : Nat) :
    Nat → Nat → Nat → Nat → Nat
  | 0, k, _, _ => k
  | fuel + 1, k, lastSeen, quietSince =>
    if POLL_INTERVAL * k < MAX_WAIT ∧
        env.aborted (startWait + POLL_INTERVAL * k) = false then
      let tNext := startWait + POLL_INTERVAL * (k + 1)
      let lr := env.lastReply tNext
      let lastSeenNext := if lastSeen < lr then lr else lastSeen
      let quietSinceNext := if lastSeen < lr then lr else quietSince
      if QUIET_PERIOD ≤ tNext - quietSinceNext then k + 1
      else waitLoop env startWait fuel (k + 1) lastSeenNext quietSinceNext
    else k

/-- Fuel sufficient for the hard ceiling: one check per poll interval plus
the initial check. -/
def waitFuel : Nat := MAX_WAIT / POLL_INTERVAL + 1

/-- The check number at which the quiescence wait exits, starting from the
initialization at lines 858-860: `lastSeenReplyTime` starts at the
current `lastReplyTime`, and `quietSince` starts at `lastReplyTime` when
a delivery already happened and at the wait start time otherwise. -/
def quiescenceExitIndexFueled (env : QuiesceEnv) (startWait fuel : Nat) : Nat :=
  let lastReplyAtStart := env.lastReply startWait
  let quietSince0 :=
    if 0 < lastReplyAtStart then lastReplyAtStart else startWait
  waitLoop env startWait fuel 0 lastReplyAtStart quietSince0

/-- The check number at which the quiescence wait exits. -/
def quiescenceExitIndex (env : QuiesceEnv) (startWait : Nat) : Nat :=
  quiescenceExitIndexFueled env startWait waitFuel

/-- The instant at which the quiescence wait exits. -/
def quiescenceExitTime (env : QuiesceEnv) (startWait : Nat) : Nat :=
  startWait + POLL_INTERVAL * quiescenceExitIndex env startWait

/-! Helper lemmas about association lists. -/

theorem alistGet_alistSet_self {α : Type} (l : AList α) (k : JsString) (v : α) :
    alistGet (alistSet l k v) k = some v := by
  induction l with
  | nil => simp [alistSet, alistGet]
  | cons hd tl ih =>
    by_cases hk : hd.1 = k
    · simp [alistSet, alistGet, hk]
    · simpa [alistSet, alistGet, hk] using ih

theorem alistGet_alistSet_ne {α : Type} (l : AList α) (k key : JsString) (v : α)
    (h : k ≠ key) : alistGet (alistSet l k v) key = alistGet l key := by
  induction l with
  | nil => simp [alistSet, alistGet, h]
  | cons hd tl ih =>
    by_cases hk : hd.1 = k
    · subst hk
      simp [alistSet, alistGet, h]
    · simp [alistSet, alistGet, hk, ih]

theorem alistSet_keys {α : Type} (l : AList α) (k : JsString) (v : α) :
    (alistSet l k v).map Prod.fst =
      if k ∈ l.map Prod.fst then l.map Prod.fst else l.map Prod.fst ++ [k] := by
  induction l with
  | nil =>
    rw [if_neg (by simp)]
    simp [alistSet]
  | cons hd tl ih =>
    by_cases hk : hd.1 = k
    · subst hk
      rw [if_pos (by rw [List.map_cons]; exact List.mem_cons_self _ _)]
      rw [show alistSet (hd :: tl) hd.1 v = (hd.1, v) :: tl from by
        simp [alistSet]]
      rw [List.map_cons, List.map_cons]
    · have hstep : alistSet (hd :: tl) k v = hd :: alistSet tl k v := by
        simp [alistSet, hk]
      rw [hstep, List.map_cons, ih]
      by_cases hmem : k ∈ tl.map Prod.fst
      · rw [if_pos hmem,
          if_pos (by rw [List.map_cons]; exact List.mem_cons_of_mem _ hmem),
          List.map_cons]
      · have hmem2 : k ∉ (hd :: tl).map Prod.fst := by
          rw [List.map_cons]
          intro hc
          rcases List.mem_cons.mp hc with h1 | h2
          · exact hk h1.symm
          · exact hmem h2
        rw [if_neg hmem, if_neg hmem2, List.map_cons, List.cons_append]

theorem alistSet_nodup {α : Type} (l : AList α) (k : JsString) (v : α)
    (h : (l.map Prod.fst).Nodup) : ((alistSet l k v).map Prod.fst).Nodup := by
  rw [alistSet_keys]
  by_cases hmem : k ∈ l.map Prod.fst
  · rw [if_pos hmem]; exact h
  · rw [if_neg hmem]
    rw [List.nodup_append]
    refine ⟨h, List.nodup_singleton k, ?_⟩
    intro x hx hxk
    rw [List.mem_singleton] at hxk
    subst hxk
    exact hmem hx

theorem alistSet_of_not_mem {α : Type} (l : AList α) (k : JsString) (v : α)
    (h : k ∉ l.map Prod.fst) : alistSet l k v = l ++ [(k, v)] := by
  induction l with
  | nil => simp [alistSet]
  | cons hd tl ih =>
    simp only [List.map_cons, List.mem_cons] at h
    push_neg at h
    simp [alistSet, Ne.symm h.1, ih h.2]

theorem foldl_alistSet_eq_append {α : Type} :
    ∀ (l : AList α) (acc : AList α),
      (((acc ++ l).map Prod.fst).Nodup) →
      l.foldl (fun a kv => alistSet a kv.1 kv.2) acc = acc ++ l := by
  intro l
  induction l with
  | nil => intro acc _; simp
  | cons hd tl ih =>
    intro acc hnd
    have hmaps : (acc ++ hd :: tl).map Prod.fst =
        acc.map Prod.fst ++ hd.1 :: tl.map Prod.fst := by simp
    rw [hmaps] at hnd
    have hnotmem : hd.1 ∉ acc.map Prod.fst ++ tl.map Prod.fst :=
      (List.nodup_cons.mp (List.nodup_middle.mp hnd)).1
    have hset : alistSet acc hd.1 hd.2 = acc ++ [hd] := by
      rw [alistSet_of_not_mem]
      intro hmem
      exact hnotmem (List.mem_append_left _ hmem)
    have hrest : ((acc ++ [hd] ++ tl).map Prod.fst).Nodup := by
      have : (acc ++ [hd] ++ tl).map Prod.fst =
          acc.map Prod.fst ++ hd.1 :: tl.map Prod.fst := by simp
      rw [this]
      exact hnd
    calc (hd :: tl).foldl (fun a kv => alistSet a kv.1 kv.2) acc
        = tl.foldl (fun a kv => alistSet a kv.1 kv.2) (acc ++ [hd]) := by
          simp [List.foldl_cons, hset]
      _ = acc ++ [hd] ++ tl := ih (acc ++ [hd]) hrest
      _ = acc ++ hd :: tl := by simp

/-- Claim C9: for every conversation id and boolean value v, writing the
setting with `setChannelReadAll` and then reading it with
`getChannelSettings` returns v, and the same value is returned after a
simulated restart in which the settings map is reloaded by
`loadChannelSettings` from the persisted store written by
`saveChannelSettings` after the mutation. The hypothesis that the map
keys are distinct is an invariant of every reachable `Map` object. -/
theorem stoat_C9_theorem (m : SettingsMap) (channelId : JsString) (v : Bool)
    (hnd : (m.map Prod.fst).Nodup) :
    getChannelSettings (setChannelReadAll m channelId v) channelId =
        { readAll := v } ∧
    getChannelSettings
        (loadChannelSettings (saveChannelSettings (setChannelReadAll m channelId v)))
        channelId = { readAll := v } := by
  have hget : getChannelSettings (setChannelReadAll m channelId v) channelId =
      { readAll := v } := by
    simp [getChannelSettings, setChannelReadAll, alistGet_alistSet_self]
  refine ⟨hget, ?_⟩
  have hnd2 : (((setChannelReadAll m channelId v)).map Prod.fst).Nodup :=
    alistSet_nodup _ _ _ hnd
  have hsave : saveChannelSettings (setChannelReadAll m channelId v) =
      setChannelReadAll m channelId v := by
    unfold saveChannelSettings
    simpa using foldl_alistSet_eq_append (setChannelReadAll m channelId v) []
      (by simpa using hnd2)
  have hload : loadChannelSettings (setChannelReadAll m channelId v) =
      setChannelReadAll m channelId v := by
    unfold loadChannelSettings
    simpa using foldl_alistSet_eq_append (setChannelReadAll m channelId v) []
      (by simpa using hnd2)
  rw [hsave, hload]
  exact hget

/-- Witness for C9 at a concrete store, conversation id and value. -/
theorem stoat_C9_witness :
    getChannelSettings
      (loadChannelSettings (saveChannelSettings
        (setChannelReadAll [(("a".toList : JsString), { readAll := false })]
          ("c1".toList) true))) ("c1".toList) = { readAll := true } :=
  (stoat_C9_theorem [(("a".toList : JsString), { readAll := false })]
    ("c1".toList) true (by simp)).2

theorem buildReactionMap_fold_none (e : JsString)
    (hre : alistGet REACTION_COMMANDS e = none) :
    ∀ (presets : List JsString) (acc : AList JsString),
      alistGet
        (presets.foldl (fun acc emoji =>
          match alistGet REACTION_COMMANDS emoji with
          | some cmd => alistSet acc emoji cmd
          | none => acc) acc) e = alistGet acc e := by
  intro presets
  induction presets with
  | nil => intro acc; rfl
  | cons p rest ih =>
    intro acc
    rw [List.foldl_cons]
    cases hrp : alistGet REACTION_COMMANDS p with
    | none =>
      dsimp only
      rw [ih]
    | some cmd =>
      dsimp only
      rw [ih]
      have hne : p ≠ e := by
        intro h
        rw [h, hre] at hrp
        exact Option.noConfusion hrp
      exact alistGet_alistSet_ne acc p e cmd hne

theorem buildReactionMap_fold_some (e c : JsString)
    (hre : alistGet REACTION_COMMANDS e = some c) :
    ∀ (presets : List JsString) (acc : AList JsString),
      alistGet
        (presets.foldl (fun acc emoji =>
          match alistGet REACTION_COMMANDS emoji with
          | some cmd => alistSet acc emoji cmd
          | none => acc) acc) e =
      (if e ∈ presets then some c else alistGet acc e) := by
  intro presets
  induction presets with
  | nil =>
    intro acc
    rw [if_neg (List.not_mem_nil e)]
    rfl
  | cons p rest ih =>
    intro acc
    rw [List.foldl_cons]
    by_cases hpe : e = p
    · subst hpe
      rw [if_pos (List.mem_cons_self _ _)]
      rw [hre]
      dsimp only
      rw [ih]
      by_cases hmem : e ∈ rest
      · rw [if_pos hmem]
      · rw [if_neg hmem, alistGet_alistSet_self]
    · have hiff : e ∈ p :: rest ↔ e ∈ rest := by
        rw [List.mem_cons]
        exact or_iff_right hpe
      cases hrp : alistGet REACTION_COMMANDS p with
      | none =>
        dsimp only
        rw [ih]
        by_cases hmem : e ∈ rest
        · rw [if_pos hmem, if_pos (hiff.mpr hmem)]
        · rw [if_neg hmem, if_neg (fun h => hmem (hiff.mp h))]
      | some cmd =>
        dsimp only
        rw [ih]
        have hacc : alistGet (alistSet acc p cmd) e = alistGet acc e :=
          alistGet_alistSet_ne acc p e cmd (fun h => hpe h.symm)
        by_cases hmem : e ∈ rest
        · rw [if_pos hmem, if_pos (hiff.mpr hmem)]
        · rw [if_neg hmem, if_neg (fun h => hmem (hiff.mp h)), hacc]

/-- Claim C10: the reaction-to-action record stored for an interactive
message built from a list of preset reactions contains exactly the preset
emojis that also occur in the static `REACTION_COMMANDS` table; a preset
emoji without a table entry is omitted, so looking it up in the record
(as the reaction handler does at src/unnamed/part_003 line 1114) resolves
to no command; and every command the record does resolve agrees with the
table. -/
theorem stoat_C10_theorem (presets : List JsString) (e : JsString) :
    ((alistGet (buildReactionMap presets) e).isSome = true ↔
      e ∈ presets ∧ (alistGet REACTION_COMMANDS e).isSome = true) ∧
    (alistGet REACTION_COMMANDS e = none →
      alistGet (buildReactionMap presets) e = none) ∧
    (∀ cmd, alistGet (buildReactionMap presets) e = some cmd →
      alistGet REACTION_COMMANDS e = some cmd) := by
  cases hre : alistGet REACTION_COMMANDS e with
  | none =>
    have hbuild : alistGet (buildReactionMap presets) e = none := by
      rw [buildReactionMap, buildReactionMap_fold_none e hre presets []]
      rfl
    refine ⟨?_, fun _ => hbuild, fun cmd hcmd => ?_⟩
    · rw [hbuild]
      simp [hre]
    · rw [hbuild] at hcmd
      exact Option.noConfusion hcmd
  | some c =>
    have hbuild : alistGet (buildReactionMap presets) e =
        (if e ∈ presets then some c else none) := by
      rw [buildReactionMap, buildReactionMap_fold_some e c hre presets []]
      rfl
    refine ⟨?_, fun hnone => ?_, fun cmd hcmd => ?_⟩
    · rw [hbuild]
      by_cases hmem : e ∈ presets
      · rw [if_pos hmem]
        simp [hmem, hre]
      · rw [if_neg hmem]
        simp [hmem]
    · exact Option.noConfusion hnone
    · rw [hbuild] at hcmd
      by_cases hmem : e ∈ presets
      · rw [if_pos hmem] at hcmd
        exact hcmd
      · rw [if_neg hmem] at hcmd
        exact Option.noConfusion hcmd

/-- Witness for C10: a preset emoji missing from the table resolves to no
command, and a preset emoji present in the table resolves to its
command. -/
theorem stoat_C10_witness :
    alistGet (buildReactionMap [("💡".toList : JsString), "📊".toList])
        ("💡".toList) = none ∧
    alistGet REACTION_COMMANDS ("📊".toList) = some ("status".toList) :=
  ⟨(stoat_C10_theorem [("💡".toList : JsString), "📊".toList]
      ("💡".toList)).2.1 (by decide), by decide⟩

/-- Counterexample to claim C7 as stated: the claim quantifies over every
bot id, but `messageMentionsBot` trims the id before matching, so for the
bot id consisting of a space followed by B1 the text does contain the
bare-mention token for that id while the function returns false. -/
theorem stoat_C7_counterexample :
    messageMentionsBot ("hi <@ B1>".toList) (" B1".toList) [] = false ∧
    jsIncludes ("hi <@ B1>".toList)
      ("<@".toList ++ " B1".toList ++ ">".toList) = true := by
  constructor
  · decide
  · decide

/-- Claim C7 as amended: for every bot id that is nonempty and equal to its
whitespace-trimmed form, mention detection returns true exactly when the
text contains the bare-mention token, or the text contains the
silent-mention token, or the structured mention-id list contains the
id. -/
theorem stoat_C7_theorem (botUserId text : JsString)
    (mentionIds : List JsString) (htrim : jsTrim botUserId = botUserId)
    (hne : botUserId ≠ []) :
    messageMentionsBot text botUserId mentionIds = true ↔
      (jsIncludes text ("<@".toList ++ botUserId ++ ">".toList) = true ∨
       jsIncludes text ("<@!".toList ++ botUserId ++ ">".toList) = true ∨
       botUserId ∈ mentionIds) := by
  unfold messageMentionsBot
  rw [htrim]
  have hempty : botUserId.isEmpty = false := by
    cases botUserId with
    | nil => exact absurd rfl hne
    | cons c rest => rfl
  dsimp only
  rw [hempty]
  rw [if_neg (by simp)]
  by_cases hmem : botUserId ∈ mentionIds
  · have hc : mentionIds.contains botUserId = true := List.elem_eq_true_of_mem hmem
    simp [hc, hmem]
  · have hc : mentionIds.contains botUserId = false := by
      rw [List.contains_eq_any_beq]
      rw [List.any_eq_false]
      intro x hx hbe
      exact hmem (by rw [eq_of_beq hbe]; exact hx)
    simp only [Bool.false_eq_true, if_false, hc, Bool.or_eq_true]
    constructor
    · intro h
      rcases h with h | h
      · exact Or.inl h
      · exact Or.inr (Or.inl h)
    · intro h
      rcases h with h | h | h
      · exact Or.inl h
      · exact Or.inr h
      · exact absurd h hmem

/-- Witness for the amended C7 at the spec example: botId B1 and text
containing the bare-mention token. -/
theorem stoat_C7_witness :
    messageMentionsBot ("hi <@B1>".toList) ("B1".toList) [] = true :=
  (stoat_C7_theorem ("B1".toList) ("hi <@B1>".toList) [] (by decide)
    (by decide)).mpr (Or.inl (by decide))

/-- Claim C8: reply-to-bot detection is total on every reply-id list
(modelled values, including null, numbers and objects without a string id
field, are simply excluded from the match by `entryId`), and the two
concrete examples from the spec evaluate as stated. -/
theorem stoat_C8_theorem :
    (∀ (v : JsVal) (items : List JsVal) (known : List JsVal),
      entryId v = none →
      messageRepliesToBot (.varr (v :: items)) known =
        messageRepliesToBot (.varr items) known) ∧
    messageRepliesToBot
      (.varr [.vnull, .vnum 42, .vobj none, .vobj (some (.vnum 9)),
              .vobj (some (.vstr ("R1".toList)))])
      [.vstr ("R2".toList)] = false ∧
    messageRepliesToBot
      (.varr [.vnull, .vnum 42, .vobj none, .vobj (some (.vnum 9)),
              .vobj (some (.vstr ("R1".toList)))])
      [.vstr ("R1".toList)] = true := by
  refine ⟨?_, by decide, by decide⟩
  intro v items known hv
  unfold messageRepliesToBot normalizeIdList
  dsimp only
  rw [List.filterMap_cons_none hv]

/-- Witness for C8: a malformed leading entry does not change the result. -/
theorem stoat_C8_witness :
    messageRepliesToBot (.varr [.vnull, .vstr ("R1".toList)])
        [.vstr ("R1".toList)] =
      messageRepliesToBot (.varr [.vstr ("R1".toList)])
        [.vstr ("R1".toList)] :=
  stoat_C8_theorem.1 .vnull [.vstr ("R1".toList)] [.vstr ("R1".toList)] rfl

theorem setCancelledFirst_map_id (l : List QueuedMessage) (mid : JsString) :
    (setCancelledFirst l mid).map QueuedMessage.id =
      l.map QueuedMessage.id := by
  induction l with
  | nil => rfl
  | cons m rest ih =>
    by_cases hm : m.id = mid
    · simp [setCancelledFirst, hm]
    · simp [setCancelledFirst, hm, ih]

theorem setCancelledFirst_mem_of_cancelled (l : List QueuedMessage)
    (mid : JsString) (m : QueuedMessage) (hmem : m ∈ l)
    (hc : m.cancelled = true) : m ∈ setCancelledFirst l mid := by
  induction l with
  | nil => exact absurd hmem (List.not_mem_nil m)
  | cons hd rest ih =>
    rcases List.mem_cons.mp hmem with heq | htl
    · subst heq
      by_cases hm : m.id = mid
      · have : { m with cancelled := true } = m := by
          cases m
          simp_all
        rw [setCancelledFirst, if_pos hm, this]
        exact List.mem_cons_self _ _
      · rw [setCancelledFirst, if_neg hm]
        exact List.mem_cons_self _ _
    · by_cases hm : hd.id = mid
      · rw [setCancelledFirst, if_pos hm]
        exact List.mem_cons_of_mem _ htl
      · rw [setCancelledFirst, if_neg hm]
        exact List.mem_cons_of_mem _ (ih htl)

/-- Claim C4: a pending-queue entry whose cancelled flag is set is never in
the batch `flushQueue` hands to turn processing, the flush clears the
whole queue, and cancelling a queued entry keeps every entry enumerable
(the id sequence of the queue is unchanged and a cancelled entry stays a
member) until the flush. -/
theorem stoat_C4_theorem (st : ChannelProcessingState) (messageId : JsString)
    (m : QueuedMessage) :
    (m.cancelled = true → m ∉ (flushQueue st).1) ∧
    (flushQueue st).2.queuedMessages = [] ∧
    ((cancelQueuedMessage st messageId).2.queuedMessages.map QueuedMessage.id
      = st.queuedMessages.map QueuedMessage.id) ∧
    (m ∈ st.queuedMessages → m.cancelled = true →
      m ∈ (cancelQueuedMessage st messageId).2.queuedMessages) := by
  refine ⟨?_, rfl, ?_, ?_⟩
  · intro hc hmem
    have := List.of_mem_filter hmem
    rw [hc] at this
    exact Bool.noConfusion this
  · unfold cancelQueuedMessage
    cases hf : st.queuedMessages.find? (fun q => decide (q.id = messageId)) with
    | none => rfl
    | some found =>
      dsimp only
      by_cases hfc : found.cancelled
      · rw [if_pos hfc]
      · rw [if_neg hfc]
        exact setCancelledFirst_map_id st.queuedMessages messageId
  · intro hmem hc
    unfold cancelQueuedMessage
    cases hf : st.queuedMessages.find? (fun q => decide (q.id = messageId)) with
    | none => exact hmem
    | some found =>
      dsimp only
      by_cases hfc : found.cancelled
      · rw [if_pos hfc]
        exact hmem
      · rw [if_neg hfc]
        exact setCancelledFirst_mem_of_cancelled st.queuedMessages messageId m
          hmem hc

/-- Witness for C4 at a concrete state with one cancelled and one live
queue entry. -/
theorem stoat_C4_witness :
    let cancelledEntry : QueuedMessage :=
      { id := "m1".toList, content := "a".toList, authorId := "u1".toList,
        authorName := "alice".toList, queuedAt := 0, cancelled := true }
    let liveEntry : QueuedMessage :=
      { id := "m2".toList, content := "b".toList, authorId := "u2".toList,
        authorName := "bob".toList, queuedAt := 1, cancelled := false }
    let st : ChannelProcessingState :=
      { isProcessing := true, currentMessageId := some ("m0".toList),
        hasAbortController := true, abortFired := false,
        queuedMessages := [cancelledEntry, liveEntry] }
    cancelledEntry ∉ (flushQueue st).1 ∧
      cancelledEntry ∈ (cancelQueuedMessage st ("m2".toList)).2.queuedMessages := by
  intro cancelledEntry liveEntry st
  exact ⟨(stoat_C4_theorem st ("m2".toList) cancelledEntry).1 rfl,
    (stoat_C4_theorem st ("m2".toList) cancelledEntry).2.2.2
      (List.mem_cons_self _ _) rfl⟩

theorem find_some_decomp {α : Type} (p : α → Bool) :
    ∀ (l : List α) (a : α), l.find? p = some a →
      ∃ l1 l2, l = l1 ++ a :: l2 ∧ (∀ x ∈ l1, p x = false) ∧ p a = true := by
  intro l
  induction l with
  | nil => intro a h; exact absurd h (by simp)
  | cons hd tl ih =>
    intro a h
    by_cases hp : p hd
    · rw [List.find?_cons_of_pos _ hp] at h
      refine ⟨[], tl, ?_, fun x hx => absurd hx (List.not_mem_nil x), ?_⟩
      · rw [Option.some.injEq] at h
        rw [h]
        rfl
      · rw [Option.some.injEq] at h
        rw [← h]
        exact hp
    · rw [List.find?_cons_of_neg _ (by simpa using hp)] at h
      obtain ⟨l1, l2, heq, hall, hpa⟩ := ih a h
      refine ⟨hd :: l1, l2, by rw [heq]; rfl, ?_, hpa⟩
      intro x hx
      rcases List.mem_cons.mp hx with hx1 | hx2
      · rw [hx1]
        exact Bool.eq_false_iff.mpr (by simpa using hp)
      · exact hall x hx2

theorem setCancelledFirst_decomp (mid : JsString) :
    ∀ (l1 : List QueuedMessage) (target : QueuedMessage)
      (l2 : List QueuedMessage),
      (∀ x ∈ l1, x.id ≠ mid) → target.id = mid →
      setCancelledFirst (l1 ++ target :: l2) mid =
        l1 ++ { target with cancelled := true } :: l2 := by
  intro l1
  induction l1 with
  | nil =>
    intro target l2 _ ht
    rw [List.nil_append, List.nil_append]
    rw [setCancelledFirst, if_pos ht]
  | cons hd rest ih =>
    intro target l2 hall ht
    have hhd : hd.id ≠ mid := hall hd (List.mem_cons_self _ _)
    rw [List.cons_append, List.cons_append]
    rw [setCancelledFirst, if_neg hhd]
    rw [ih target l2 (fun x hx => hall x (List.mem_cons_of_mem _ hx)) ht]

/-- Claim C3: a stop reaction whose target id equals the current message id
of a running turn (one with an active abort controller) fires that turn
token and reports true; a stop reaction whose target is a queued,
not-yet-cancelled entry instead marks exactly that entry cancelled,
replaces its queued indicator with the cancelled indicator, and leaves
the running turn token, processing flag and current message id
untouched. -/
theorem stoat_C3_theorem (st : ChannelProcessingState) (messageId : JsString) :
    (st.currentMessageId = some messageId → st.isProcessing = true →
      st.hasAbortController = true →
      handleStopReaction st messageId =
        (.abortRequested true, { st with abortFired := true })) ∧
    (st.currentMessageId ≠ some messageId →
      ∀ target, st.queuedMessages.find? (fun q => decide (q.id = messageId)) =
          some target →
        target.cancelled = false →
        ∃ st2, handleStopReaction st messageId =
            (.queuedCancelled
              [.unreact messageId EMOJI_QUEUED,
               .unreact messageId EMOJI_STOP,
               .react messageId EMOJI_CANCELLED], st2) ∧
          st2.abortFired = st.abortFired ∧
          st2.isProcessing = st.isProcessing ∧
          st2.currentMessageId = st.currentMessageId ∧
          ∃ l1 l2, st.queuedMessages = l1 ++ target :: l2 ∧
            (∀ x ∈ l1, x.id ≠ messageId) ∧
            st2.queuedMessages =
              l1 ++ { target with cancelled := true } :: l2) := by
  constructor
  · intro hcur hproc hctrl
    unfold handleStopReaction
    rw [if_pos hcur]
    unfold requestAbort
    rw [hproc, hctrl]
    rfl
  · intro hcur target hfind hnc
    unfold handleStopReaction
    rw [if_neg hcur]
    have hcancel : cancelQueuedMessage st messageId =
        (true, { st with
          queuedMessages := setCancelledFirst st.queuedMessages messageId }) := by
      unfold cancelQueuedMessage
      rw [hfind]
      dsimp only
      rw [if_neg (by rw [hnc]; exact Bool.false_ne_true)]
    rw [hcancel]
    obtain ⟨l1, l2, heq, hall, hpt⟩ :=
      find_some_decomp (fun q => decide (q.id = messageId))
        st.queuedMessages target hfind
    have htid : target.id = messageId := of_decide_eq_true hpt
    refine ⟨_, rfl, rfl, rfl, rfl, l1, l2, heq, ?_, ?_⟩
    · intro x hx
      have := hall x hx
      exact of_decide_eq_false this
    · show setCancelledFirst st.queuedMessages messageId =
        l1 ++ { target with cancelled := true } :: l2
      rw [heq]
      exact setCancelledFirst_decomp messageId l1 target l2
        (fun x hx => of_decide_eq_false (hall x hx)) htid

/-- Witness for C3: the running-turn branch at a concrete state fires the
token, and the queued branch at a concrete state cancels only the queued
entry. -/
theorem stoat_C3_witness :
    let queuedEntry : QueuedMessage :=
      { id := "m2".toList, content := "b".toList, authorId := "u2".toList,
        authorName := "bob".toList, queuedAt := 1, cancelled := false }
    let st : ChannelProcessingState :=
      { isProcessing := true, currentMessageId := some ("m1".toList),
        hasAbortController := true, abortFired := false,
        queuedMessages := [queuedEntry] }
    handleStopReaction st ("m1".toList) =
        (.abortRequested true, { st with abortFired := true }) ∧
      ∃ st2, handleStopReaction st ("m2".toList) =
          (.queuedCancelled
            [.unreact ("m2".toList) EMOJI_QUEUED,
             .unreact ("m2".toList) EMOJI_STOP,
             .react ("m2".toList) EMOJI_CANCELLED], st2) ∧
        st2.abortFired = st.abortFired ∧
        st2.isProcessing = st.isProcessing ∧
        st2.currentMessageId = st.currentMessageId ∧
        ∃ l1 l2, st.queuedMessages = l1 ++ queuedEntry :: l2 ∧
          (∀ x ∈ l1, x.id ≠ "m2".toList) ∧
          st2.queuedMessages =
            l1 ++ { queuedEntry with cancelled := true } :: l2 := by
  intro queuedEntry st
  refine ⟨(stoat_C3_theorem st ("m1".toList)).1 rfl rfl rfl, ?_⟩
  exact (stoat_C3_theorem st ("m2".toList)).2 (by decide) queuedEntry
    (by decide) rfl

theorem foldl_append_concatAll (f : QueuedMessage → JsString) :
    ∀ (l : List QueuedMessage) (acc : JsString),
      l.foldl (fun a m => a ++ f m) acc = acc ++ concatAll (l.map f) := by
  intro l
  induction l with
  | nil => intro acc; simp [concatAll]
  | cons hd tl ih =>
    intro acc
    rw [List.foldl_cons, ih, List.map_cons]
    rw [show concatAll (f hd :: tl.map f) = f hd ++ concatAll (tl.map f)
      from rfl]
    rw [List.append_assoc]

/-- Claim C5: a single-message batch uses the raw message text verbatim as
the combined prompt; a batch of two or more messages uses the
concatenation, in arrival order, of one bracketed author line per
message; and a nonempty batch triggers exactly one AI dispatch call whose
prompt is the combined body. -/
theorem stoat_C5_theorem :
    (∀ m : QueuedMessage, combinedBody [m] = m.content) ∧
    (∀ messages : List QueuedMessage, 2 ≤ messages.length →
      combinedBody messages = concatAll (messages.map promptLine)) ∧
    (∀ (messages : List QueuedMessage) (outcome : DispatchOutcome)
        (abortedAtEnd : Bool) (queue : List QueuedMessage),
      messages ≠ [] →
      (processMessagesModel messages outcome abortedAtEnd queue).dispatchCalls
          = 1 ∧
      (processMessagesModel messages outcome abortedAtEnd queue).prompt =
          combinedBody messages) := by
  refine ⟨?_, ?_, ?_⟩
  · intro m
    rw [combinedBody, List.foldl_cons, List.foldl_nil]
    rw [if_neg (by simp)]
  · intro messages hlen
    have hgt : messages.length > 1 := hlen
    rw [combinedBody]
    rw [show (fun (acc : JsString) m =>
        if messages.length > 1 then acc ++ promptLine m else m.content) =
        (fun (acc : JsString) m => acc ++ promptLine m) from
      funext fun acc => funext fun m => if_pos hgt]
    rw [foldl_append_concatAll promptLine messages []]
    rfl
  · intro messages outcome abortedAtEnd queue hne
    have hempty : messages.isEmpty = false := by
      cases messages with
      | nil => exact absurd rfl hne
      | cons a b => rfl
    unfold processMessagesModel
    rw [hempty]
    exact ⟨rfl, rfl⟩

/-- Witness for C5 at concrete one-message and two-message batches. -/
theorem stoat_C5_witness :
    combinedBody
        [{ id := "m1".toList, content := "hello".toList,
           authorId := "u1".toList, authorName := "alice".toList,
           queuedAt := 0, cancelled := false }] = "hello".toList ∧
    combinedBody
        [{ id := "m1".toList, content := "hello".toList,
           authorId := "u1".toList, authorName := "alice".toList,
           queuedAt := 0, cancelled := false },
         { id := "m2".toList, content := "world".toList,
           authorId := "u2".toList, authorName := "bob".toList,
           queuedAt := 1, cancelled := false }] =
      "[alice]: hello\n[bob]: world\n".toList ∧
    (processMessagesModel
        [{ id := "m1".toList, content := "hello".toList,
           authorId := "u1".toList, authorName := "alice".toList,
           queuedAt := 0, cancelled := false }] .ok false []).dispatchCalls
      = 1 := by
  refine ⟨stoat_C5_theorem.1 _, ?_, (stoat_C5_theorem.2.2 _ .ok false []
    (by simp)).1⟩
  rw [stoat_C5_theorem.2.1 _ (by decide)]
  decide

theorem deliverAllFrom_take (firstMsgId : JsString) (a : Nat) :
    ∀ (payloads : List JsString) (i : Nat),
      deliverAllFrom (some a) firstMsgId i payloads =
        deliverAllFrom none firstMsgId i (payloads.take (a - i)) := by
  intro payloads
  induction payloads with
  | nil => intro i; simp [deliverAllFrom]
  | cons p rest ih =>
    intro i
    by_cases hai : a ≤ i
    · have hz : a - i = 0 := Nat.sub_eq_zero_of_le hai
      rw [hz, List.take_zero]
      rw [show deliverAllFrom none firstMsgId i [] = [] from rfl]
      have hfired : abortFiredAt (some a) i = true := by
        unfold abortFiredAt
        exact decide_eq_true hai
      rw [deliverAllFrom, hfired]
      rw [show deliver true firstMsgId p = none from rfl]
      have hrest := ih (i + 1)
      have hz2 : a - (i + 1) = 0 := Nat.sub_eq_zero_of_le (Nat.le_succ_of_le hai)
      rw [hrest, hz2, List.take_zero]
      rfl
    · have hlt : i < a := Nat.lt_of_not_le hai
      have hsub : a - i = (a - (i + 1)) + 1 := by omega
      rw [hsub, List.take_succ_cons]
      have hunfired : abortFiredAt (some a) i = false := by
        unfold abortFiredAt
        exact decide_eq_false (Nat.not_le_of_lt hlt)
      have hnone : abortFiredAt none i = false := rfl
      rw [deliverAllFrom, hunfired]
      rw [show deliverAllFrom none firstMsgId i
          (p :: (rest.take (a - (i + 1)))) =
        (match deliver (abortFiredAt none i) firstMsgId p with
         | some r =>
            r :: deliverAllFrom none firstMsgId (i + 1) (rest.take (a - (i + 1)))
         | none =>
            deliverAllFrom none firstMsgId (i + 1) (rest.take (a - (i + 1))))
        from rfl]
      rw [hnone]
      cases deliver false firstMsgId p with
      | none => exact ih (i + 1)
      | some r => rw [ih (i + 1)]

/-- Claim C2: once the cancellation token of the running turn has fired,
the deliver callback suppresses the reply (no message is sent), every
delivery attempt from the firing point on sends nothing (the sent replies
are exactly those of the attempts before the abort), and the turn ends
with the cancelled terminal indicator on its batch messages and never
with the complete indicator. -/
theorem stoat_C2_theorem :
    (∀ (firstMsgId payload : JsString),
      deliver true firstMsgId payload = none) ∧
    (∀ (a : Nat) (firstMsgId : JsString) (payloads : List JsString),
      deliverAll (some a) firstMsgId payloads =
        deliverAll none firstMsgId (payloads.take a)) ∧
    (∀ (messages queue : List QueuedMessage),
      (∀ m ∈ messages,
        ReactionOp.react m.id EMOJI_CANCELLED ∈
          (processMessagesModel messages .ok true queue).ops) ∧
      (∀ anyId : JsString,
        ReactionOp.react anyId EMOJI_COMPLETE ∉
          (processMessagesModel messages .ok true queue).ops)) := by
  refine ⟨fun _ _ => rfl, ?_, ?_⟩
  · intro a firstMsgId payloads
    have := deliverAllFrom_take firstMsgId a payloads 0
    rw [Nat.sub_zero] at this
    exact this
  · intro messages queue
    by_cases hempty : messages.isEmpty
    · have hops : (processMessagesModel messages .ok true queue).ops = [] := by
        unfold processMessagesModel
        rw [if_pos hempty]
      constructor
      · intro m hm
        cases messages with
        | nil => exact absurd hm (List.not_mem_nil m)
        | cons x xs => exact absurd hempty (by simp)
      · intro anyId hmem
        rw [hops] at hmem
        exact absurd hmem (List.not_mem_nil _)
    · have hops : (processMessagesModel messages .ok true queue).ops =
          messages.flatMap (fun m =>
            [ReactionOp.unreact m.id EMOJI_PROCESSING,
             ReactionOp.unreact m.id EMOJI_STOP,
             ReactionOp.react m.id EMOJI_CANCELLED]) := by
        unfold processMessagesModel
        rw [if_neg hempty]
        rfl
      constructor
      · intro m hm
        rw [hops]
        rw [List.mem_flatMap]
        exact ⟨m, hm, by simp⟩
      · intro anyId hmem
        rw [hops, List.mem_flatMap] at hmem
        obtain ⟨x, _, hx⟩ := hmem
        rw [List.mem_cons, List.mem_cons, List.mem_cons] at hx
        rcases hx with h1 | h1 | h1 | h1
        · exact ReactionOp.noConfusion h1
        · exact ReactionOp.noConfusion h1
        · have hinj : EMOJI_COMPLETE = EMOJI_CANCELLED := by
            injection h1 with _ h
          exact absurd hinj (by decide)
        · exact absurd h1 (List.not_mem_nil _)

/-- Witness for C2: suppressed deliveries and the cancelled terminal
indicator at a concrete batch. -/
theorem stoat_C2_witness :
    deliverAll (some 1) ("m1".toList)
        ["one".toList, "two".toList, "three".toList] =
      [{ content := "one".toList, replyToId := "m1".toList }] ∧
    ReactionOp.react ("m1".toList) EMOJI_CANCELLED ∈
      (processMessagesModel
        [{ id := "m1".toList, content := "hello".toList,
           authorId := "u1".toList, authorName := "alice".toList,
           queuedAt := 0, cancelled := false }] .ok true []).ops := by
  constructor
  · rw [stoat_C2_theorem.2.1 1 ("m1".toList)
      ["one".toList, "two".toList, "three".toList]]
    decide
  · exact (stoat_C2_theorem.2.2
      [{ id := "m1".toList, content := "hello".toList,
         authorId := "u1".toList, authorName := "alice".toList,
         queuedAt := 0, cancelled := false }] []).1 _
      (List.mem_cons_self _ _)

/-- Counterexample to claim C1 as stated: when the AI dispatch call throws
and the cancellation token has not fired, the batch message receives the
complete indicator itself, not a terminal indicator distinct from the
complete indicator; the code defines no failure marker at all. -/
theorem stoat_C1_counterexample :
    (processMessagesModel
      [{ id := "m1".toList, content := "hello".toList,
         authorId := "u1".toList, authorName := "alice".toList,
         queuedAt := 0, cancelled := false }] .threw false []).ops =
    [.unreact ("m1".toList) EMOJI_PROCESSING,
     .unreact ("m1".toList) EMOJI_STOP,
     .react ("m1".toList) EMOJI_COMPLETE] := by
  decide

/-- Claim C1 as amended: an AI dispatch error is caught within the turn (an
error turn reaches the same terminal step, with the same terminal
reactions, as a successful turn), and when the cancellation token has not
fired every message of the batch receives the complete indicator; the
complete indicator is the only terminal react the turn emits, so no
distinct failed indicator exists. -/
theorem stoat_C1_theorem (messages queue : List QueuedMessage)
    (hne : messages ≠ []) :
    ((processMessagesModel messages .threw false queue).ops =
      (processMessagesModel messages .ok false queue).ops) ∧
    ((processMessagesModel messages .threw false queue).ranTurn = true) ∧
    (∀ m ∈ messages,
      ReactionOp.react m.id EMOJI_COMPLETE ∈
        (processMessagesModel messages .threw false queue).ops) ∧
    (∀ (anyId emoji : JsString),
      ReactionOp.react anyId emoji ∈
        (processMessagesModel messages .threw false queue).ops →
      emoji = EMOJI_COMPLETE) := by
  have hempty : messages.isEmpty = false := by
    cases messages with
    | nil => exact absurd rfl hne
    | cons a b => rfl
  have hops : (processMessagesModel messages .threw false queue).ops =
      messages.flatMap (fun m =>
        [ReactionOp.unreact m.id EMOJI_PROCESSING,
         ReactionOp.unreact m.id EMOJI_STOP,
         ReactionOp.react m.id EMOJI_COMPLETE]) := by
    unfold processMessagesModel
    rw [hempty]
    rfl
  have hops2 : (processMessagesModel messages .ok false queue).ops =
      messages.flatMap (fun m =>
        [ReactionOp.unreact m.id EMOJI_PROCESSING,
         ReactionOp.unreact m.id EMOJI_STOP,
         ReactionOp.react m.id EMOJI_COMPLETE]) := by
    unfold processMessagesModel
    rw [hempty]
    rfl
  refine ⟨by rw [hops, hops2], ?_, ?_, ?_⟩
  · unfold processMessagesModel
    rw [hempty]
    rfl
  · intro m hm
    rw [hops, List.mem_flatMap]
    exact ⟨m, hm, by simp⟩
  · intro anyId emoji hmem
    rw [hops, List.mem_flatMap] at hmem
    obtain ⟨x, _, hx⟩ := hmem
    rw [List.mem_cons, List.mem_cons, List.mem_cons] at hx
    rcases hx with h1 | h1 | h1 | h1
    · exact ReactionOp.noConfusion h1
    · exact ReactionOp.noConfusion h1
    · injection h1 with _ h
    · exact absurd h1 (List.not_mem_nil _)

/-- Witness for the amended C1 at a concrete one-message batch. -/
theorem stoat_C1_witness :
    ReactionOp.react ("m1".toList) EMOJI_COMPLETE ∈
      (processMessagesModel
        [{ id := "m1".toList, content := "hello".toList,
           authorId := "u1".toList, authorName := "alice".toList,
           queuedAt := 0, cancelled := false }] .threw false []).ops :=
  (stoat_C1_theorem
    [{ id := "m1".toList, content := "hello".toList,
       authorId := "u1".toList, authorName := "alice".toList,
       queuedAt := 0, cancelled := false }] [] (by simp)).2.2.1 _
    (List.mem_cons_self _ _)

theorem waitLoop_le_ceiling (env : QuiesceEnv) (t0 : Nat) :
    ∀ (fuel k lastSeen quietSince : Nat), k ≤ 360 →
      waitLoop env t0 fuel k lastSeen quietSince ≤ 360 := by
  intro fuel
  induction fuel with
  | zero => intro k ls q hk; exact hk
  | succ fuel ih =>
    intro k ls q hk
    rw [waitLoop]
    by_cases hc : POLL_INTERVAL * k < MAX_WAIT ∧
        env.aborted (t0 + POLL_INTERVAL * k) = false
    · rw [if_pos hc]
      have hklt : k < 360 := by
        have h1 := hc.1
        simp only [POLL_INTERVAL, MAX_WAIT] at h1
        omega
      dsimp only
      by_cases hq : QUIET_PERIOD ≤
          t0 + POLL_INTERVAL * (k + 1) -
            (if ls < env.lastReply (t0 + POLL_INTERVAL * (k + 1)) then
              env.lastReply (t0 + POLL_INTERVAL * (k + 1)) else q)
      · rw [if_pos hq]
        omega
      · rw [if_neg hq]
        exact ih (k + 1) _ _ (by omega)
    · rw [if_neg hc]
      exact hk

theorem waitLoop_fuel_irrel (env : QuiesceEnv) (t0 : Nat) :
    ∀ (f1 f2 k lastSeen quietSince : Nat),
      360 - k < f1 → 360 - k < f2 →
      waitLoop env t0 f1 k lastSeen quietSince =
        waitLoop env t0 f2 k lastSeen quietSince := by
  intro f1
  induction f1 with
  | zero => intro f2 k ls q h1 h2; omega
  | succ f1 ih =>
    intro f2 k ls q h1 h2
    cases f2 with
    | zero => omega
    | succ f2 =>
      rw [waitLoop]
      rw [show waitLoop env t0 (f2 + 1) k ls q =
        (if POLL_INTERVAL * k < MAX_WAIT ∧
            env.aborted (t0 + POLL_INTERVAL * k) = false then
          let tNext := t0 + POLL_INTERVAL * (k + 1)
          let lr := env.lastReply tNext
          let lastSeenNext := if ls < lr then lr else ls
          let quietSinceNext := if ls < lr then lr else q
          if QUIET_PERIOD ≤ tNext - quietSinceNext then k + 1
          else waitLoop env t0 f2 (k + 1) lastSeenNext quietSinceNext
        else k) from rfl]
      by_cases hc : POLL_INTERVAL * k < MAX_WAIT ∧
          env.aborted (t0 + POLL_INTERVAL * k) = false
      · rw [if_pos hc, if_pos hc]
        have hklt : k < 360 := by
          have hcc := hc.1
          simp only [POLL_INTERVAL, MAX_WAIT] at hcc
          omega
        dsimp only
        by_cases hq : QUIET_PERIOD ≤
            t0 + POLL_INTERVAL * (k + 1) -
              (if ls < env.lastReply (t0 + POLL_INTERVAL * (k + 1)) then
                env.lastReply (t0 + POLL_INTERVAL * (k + 1)) else q)
        · rw [if_pos hq, if_pos hq]
        · rw [if_neg hq, if_neg hq]
          exact ih f2 (k + 1) _ _ (by omega) (by omega)
      · rw [if_neg hc, if_neg hc]

theorem waitLoop_quiet (env : QuiesceEnv) (t0 L q0 : Nat)
    (hL : ∀ t, t0 ≤ t → env.lastReply t = L) :
    ∀ (fuel k : Nat),
      (k = 0 ∨ t0 + POLL_INTERVAL * k < q0 + QUIET_PERIOD) →
      t0 + POLL_INTERVAL * waitLoop env t0 fuel k L q0 ≤
        max t0 q0 + QUIET_PERIOD + POLL_INTERVAL := by
  have hmax1 : t0 ≤ max t0 q0 := Nat.le_max_left _ _
  have hmax2 : q0 ≤ max t0 q0 := Nat.le_max_right _ _
  intro fuel
  induction fuel with
  | zero =>
    intro k hk
    show t0 + POLL_INTERVAL * k ≤ max t0 q0 + QUIET_PERIOD + POLL_INTERVAL
    rcases hk with rfl | hk
    · simp only [POLL_INTERVAL, QUIET_PERIOD]
      omega
    · simp only [POLL_INTERVAL, QUIET_PERIOD] at hk ⊢
      omega
  | succ fuel ih =>
    intro k hk
    rw [waitLoop]
    by_cases hc : POLL_INTERVAL * k < MAX_WAIT ∧
        env.aborted (t0 + POLL_INTERVAL * k) = false
    · rw [if_pos hc]
      dsimp only
      rw [hL (t0 + POLL_INTERVAL * (k + 1)) (Nat.le_add_right _ _)]
      rw [if_neg (Nat.lt_irrefl L), if_neg (Nat.lt_irrefl L)]
      by_cases hq : QUIET_PERIOD ≤ t0 + POLL_INTERVAL * (k + 1) - q0
      · rw [if_pos hq]
        rcases hk with rfl | hk
        · simp only [POLL_INTERVAL, QUIET_PERIOD]
          omega
        · simp only [POLL_INTERVAL, QUIET_PERIOD] at hk ⊢
          omega
      · rw [if_neg hq]
        apply ih (k + 1)
        right
        simp only [POLL_INTERVAL, QUIET_PERIOD] at hq ⊢
        omega
    · rw [if_neg hc]
      show t0 + POLL_INTERVAL * k ≤ max t0 q0 + QUIET_PERIOD + POLL_INTERVAL
      rcases hk with rfl | hk
      · simp only [POLL_INTERVAL, QUIET_PERIOD]
        omega
      · simp only [POLL_INTERVAL, QUIET_PERIOD] at hk ⊢
        omega

theorem waitLoop_abort (env : QuiesceEnv) (t0 K : Nat)
    (hmono : ∀ a b, a ≤ b → env.aborted a = true → env.aborted b = true)
    (hK : env.aborted (t0 + POLL_INTERVAL * K) = true) :
    ∀ (fuel k lastSeen quietSince : Nat), k ≤ K →
      waitLoop env t0 fuel k lastSeen quietSince ≤ K := by
  intro fuel
  induction fuel with
  | zero => intro k ls q hk; exact hk
  | succ fuel ih =>
    intro k ls q hk
    rw [waitLoop]
    by_cases hc : POLL_INTERVAL * k < MAX_WAIT ∧
        env.aborted (t0 + POLL_INTERVAL * k) = false
    · rw [if_pos hc]
      have hklt : k < K := by
        rcases Nat.lt_or_ge k K with h | h
        · exact h
        · have hle : t0 + POLL_INTERVAL * K ≤ t0 + POLL_INTERVAL * k := by
            simp only [POLL_INTERVAL]
            omega
          have habs : env.aborted (t0 + POLL_INTERVAL * k) = true :=
            hmono _ _ hle hK
          rw [habs] at hc
          exact absurd hc.2 (by simp)
      dsimp only
      by_cases hq : QUIET_PERIOD ≤
          t0 + POLL_INTERVAL * (k + 1) -
            (if ls < env.lastReply (t0 + POLL_INTERVAL * (k + 1)) then
              env.lastReply (t0 + POLL_INTERVAL * (k + 1)) else q)
      · rw [if_pos hq]
        omega
      · rw [if_neg hq]
        exact ih (k + 1) _ _ (by omega)
    · rw [if_neg hc]
      exact hk

/-- Claim C6: the quiescence wait always terminates within the hard ceiling
of 180000 ms of its start (and any fuel beyond the ceiling leaves the
modelled loop unchanged, so the fueled model is the real loop); when no
new delivery occurs during the wait it exits within the 3000 ms quiet
window plus one 500 ms poll interval measured from the later of the wait
start and the recorded last delivery; and once the cancellation token has
fired (monotonically) by check K, the wait exits no later than that
check. -/
theorem stoat_C6_theorem :
    (∀ (env : QuiesceEnv) (t0 : Nat),
      quiescenceExitTime env t0 ≤ t0 + MAX_WAIT) ∧
    (∀ (env : QuiesceEnv) (t0 fuel : Nat), waitFuel ≤ fuel →
      quiescenceExitIndexFueled env t0 fuel = quiescenceExitIndex env t0) ∧
    (∀ (env : QuiesceEnv) (t0 : Nat),
      (∀ t, t0 ≤ t → env.lastReply t = env.lastReply t0) →
      quiescenceExitTime env t0 ≤
        max t0 (env.lastReply t0) + QUIET_PERIOD + POLL_INTERVAL) ∧
    (∀ (env : QuiesceEnv) (t0 K : Nat),
      (∀ a b, a ≤ b → env.aborted a = true → env.aborted b = true) →
      env.aborted (t0 + POLL_INTERVAL * K) = true →
      quiescenceExitTime env t0 ≤ t0 + POLL_INTERVAL * K) := by
  refine ⟨?_, ?_, ?_, ?_⟩
  · intro env t0
    have hidx : quiescenceExitIndex env t0 ≤ 360 := by
      unfold quiescenceExitIndex quiescenceExitIndexFueled
      exact waitLoop_le_ceiling env t0 waitFuel 0 _ _ (Nat.zero_le _)
    unfold quiescenceExitTime
    simp only [POLL_INTERVAL, MAX_WAIT]
    simp only [POLL_INTERVAL] at hidx
    omega
  · intro env t0 fuel hfuel
    unfold quiescenceExitIndex quiescenceExitIndexFueled
    apply waitLoop_fuel_irrel
    · have : waitFuel = 361 := by
        simp only [waitFuel, MAX_WAIT, POLL_INTERVAL]
      omega
    · have : waitFuel = 361 := by
        simp only [waitFuel, MAX_WAIT, POLL_INTERVAL]
      omega
  · intro env t0 hno
    have hmaxeq : max t0 (if 0 < env.lastReply t0 then env.lastReply t0
        else t0) = max t0 (env.lastReply t0) := by
      by_cases h0 : 0 < env.lastReply t0
      · rw [if_pos h0]
      · rw [if_neg h0]
        have hz : env.lastReply t0 = 0 := by omega
        rw [hz, Nat.max_self, Nat.max_zero]
    unfold quiescenceExitTime quiescenceExitIndex quiescenceExitIndexFueled
    rw [← hmaxeq]
    exact waitLoop_quiet env t0 (env.lastReply t0)
      (if 0 < env.lastReply t0 then env.lastReply t0 else t0) hno waitFuel 0
      (Or.inl rfl)
  · intro env t0 K hmono hK
    have hidx : quiescenceExitIndex env t0 ≤ K := by
      unfold quiescenceExitIndex quiescenceExitIndexFueled
      exact waitLoop_abort env t0 K hmono hK waitFuel 0 _ _ (Nat.zero_le _)
    unfold quiescenceExitTime
    simp only [POLL_INTERVAL] at hidx ⊢
    omega

/-- An environment with no deliveries and no abort, used as the witness
input of the quiescence bounds. -/
def quietTestEnv : QuiesceEnv :=
  { lastReply := fun _ => 0, aborted := fun _ => false }

/-- Witness for C6: the no-delivery bound at a concrete environment. -/
theorem stoat_C6_witness :
    quiescenceExitTime quietTestEnv 0 ≤
      max 0 (quietTestEnv.lastReply 0) + QUIET_PERIOD + POLL_INTERVAL :=
  stoat_C6_theorem.2.2.1 quietTestEnv 0 (fun _ _ => rfl)

end Stoat
